import Mathlib

/-!
# Verification of the `ack` message-tracking engine

Shallow embedding of the Go package `ack` (generic iteration:
`AckManager[flag, val]` with a sharded `recorder[flag, val]` store,
optional async ingestion queues and an optional `CanAck` predicate).

Modelling conventions:
* Go's `map[int64]*msg` becomes an association list `List (Int × Msg α β)`
  with the no-duplicate-keys invariant `NodupKeys`; map assignment is
  `mapInsert`, `delete` is `mapErase`, indexing is `mapLookup`.
* `time.Now().UnixNano()` becomes an explicit `now : Int` parameter at each
  call site where the Go code reads the clock.
* Go's `int64`/`int` become `Int`; `uid % capacity` uses Go's truncated
  remainder, `Int.tmod`.
* A Go runtime fault (nil-pointer dereference, slice index out of range)
  is `none` in an `Option`-valued result.
* A buffered channel is its queue of buffered elements (a `List`) together
  with its capacity; a non-blocking send succeeds exactly when the queue
  holds fewer elements than the capacity.
* The `recorder.am` back-pointer is only ever read for `am.canAck`, so
  `Remove` takes the predicate as an explicit argument instead.
-/

set_option autoImplicit false

namespace Ack

/-- Internal encapsulation of the sending message (`msg[flag, val]`):
message ID, send timestamp (UnixNano), opaque flag, opaque payload. -/
structure Msg (α β : Type) where
  ID : Int
  Timestamp : Int
  Flag : α
  Value : β
  deriving Repr, DecidableEq

/-- The optional ack-compatibility predicate `CanAck[flag]`. -/
def CanAckPred (α : Type) : Type := α → α → Bool

variable {α β : Type}

/-- Go map assignment `m[k] = v`: replace the binding for `k` if present,
otherwise add it. -/
def mapInsert (s : List (Int × Msg α β)) (k : Int) (v : Msg α β) :
    List (Int × Msg α β) :=
  match s with
  | [] => [(k, v)]
  | (k', v') :: rest =>
      if k' = k then (k, v) :: rest else (k', v') :: mapInsert rest k v

/-- Go `delete(m, k)`: drop every binding for `k` (at most one under
`NodupKeys`). -/
def mapErase (s : List (Int × Msg α β)) (k : Int) : List (Int × Msg α β) :=
  match s with
  | [] => []
  | (k', v') :: rest =>
      if k' = k then mapErase rest k else (k', v') :: mapErase rest k

/-- Go map read `m[k]`: the value bound to `k`, if any. -/
def mapLookup (s : List (Int × Msg α β)) (k : Int) : Option (Msg α β) :=
  match s with
  | [] => none
  | (k', v') :: rest => if k' = k then some v' else mapLookup rest k

/-- A Go map never binds the same key twice. -/
def NodupKeys (s : List (Int × Msg α β)) : Prop :=
  (s.map Prod.fst).Nodup

instance (s : List (Int × Msg α β)) : Decidable (NodupKeys s) := by
  unfold NodupKeys; infer_instance

/-- One shard (`recorder[flag, val]`): the identifier-to-record map.
The mutex only serialises access and has no sequential content. -/
structure recorder (α β : Type) where
  msgs : List (Int × Msg α β)
  deriving Repr, DecidableEq

namespace recorder

/-- `recorder.Set`: build a fresh record stamped with the current time and
store it under `id`, overwriting any previous record. -/
def Set (r : recorder α β) (id : Int) (f : α) (v : β) (now : Int) :
    recorder α β :=
  ⟨mapInsert r.msgs id ⟨id, now, f, v⟩⟩

/-- `recorder.Remove`: look up `id`; compute `canAck` (`true` when no
predicate is configured, otherwise `canAck(m.Flag, f)` — evaluated on the
looked-up pointer *before* the presence check, so with a predicate present
and no record for `id` the Go code dereferences a nil `*msg` and faults,
which is `none` here); delete the record when it is present and `canAck`. -/
def Remove (canAck : Option (CanAckPred α)) (r : recorder α β) (id : Int)
    (f : α) : Option (recorder α β) :=
  let m? := mapLookup r.msgs id
  match canAck with
  | none => some (if m?.isSome then ⟨mapErase r.msgs id⟩ else r)
  | some p =>
      match m? with
      | none => none
      | some m =>
          some (if p m.Flag f then ⟨mapErase r.msgs id⟩ else r)

/-- `recorder.Get`: for `duration ≤ 0` return the empty list at once;
otherwise return every record whose age `now − Timestamp` is at least
`duration`. Reads only; the shard map is not touched. -/
def Get (r : recorder α β) (duration now : Int) : List (Msg α β) :=
  if duration ≤ 0 then []
  else ((r.msgs.filter (fun kv => duration ≤ now - kv.2.Timestamp)).map
    (fun kv => kv.2))

/-- The map `recorder.ReAllocate` builds and installs: every binding of
`r.msgs` copied, entry by entry (here in list order), into a freshly
allocated map. This is the shard state in force from the `r.msgs = newMsgs`
assignment until the faulting unlock two lines later (and the result the
method was evidently meant to return). -/
def reAllocateCopy (r : recorder α β) : recorder α β :=
  ⟨r.msgs.foldl (fun acc kv => mapInsert acc kv.1 kv.2) []⟩

/-- `recorder.ReAllocate`: allocates `newMsgs`, takes the write lock with
`Lock()`, copies every binding and installs the copy (`reAllocateCopy`
above) — and then releases with `RUnlock()` instead of `Unlock()`.
`RUnlock` on a write-locked `sync.RWMutex` is an unconditional runtime
fatal (`sync: RUnlock of unlocked RWMutex`), even single-threaded, so the
call never returns: `none` on every input. -/
def ReAllocate (_r : recorder α β) : Option (recorder α β) :=
  none

end recorder

/-- The two package-level error sentinels. -/
inductive AckError where
  | ErrMsgRecordFailed
  | ErrMsgAckFailed
  deriving Repr, DecidableEq

/-- `Config[flag]`: capacity, mode, buffer sizes and the optional
`CanAck` predicate. -/
structure Config (α : Type) where
  Capacity : Int
  Async : Bool
  SetBufferSize : Int
  AckBufferSize : Int
  CanAck : Option (CanAckPred α)

/-- `AckManager[flag, val]`: sharded store plus the async pipeline state.
`setCh`/`ackCh` hold the buffered elements of the two channels, with their
capacities in `setBufSize`/`ackBufSize`; the ack-channel messages only ever
have their `ID` and `Flag` fields read, so they are kept as pairs. -/
structure AckManager (α β : Type) where
  capacity : Int
  records : List (recorder α β)
  canAck : Option (CanAckPred α)
  async : Bool
  setCh : List (Msg α β)
  setBufSize : Int
  ackCh : List (Int × α)
  ackBufSize : Int
  status : Int

namespace AckManager

variable {α β : Type}

/-- `NewAckManager`: reject non-positive capacity, otherwise build
`capacity` empty shards; in async mode the two channels are allocated with
the configured buffer sizes. -/
def NewAckManager (cfg : Config α) : Except String (AckManager α β) :=
  if cfg.Capacity ≤ 0 then .error "capacity should be more than 0"
  else .ok
    { capacity := cfg.Capacity
      records := List.replicate cfg.Capacity.toNat ⟨[]⟩
      canAck := cfg.CanAck
      async := cfg.Async
      setCh := []
      setBufSize := if cfg.Async then cfg.SetBufferSize else 0
      ackCh := []
      ackBufSize := if cfg.Async then cfg.AckBufferSize else 0
      status := 0 }

/-- The routing expression `id % int64(a.capacity)` of the internal `set`
and `ack`: Go's `%` is the truncated remainder, `Int.tmod`. -/
def shardIndex (a : AckManager α β) (id : Int) : Int :=
  Int.tmod id a.capacity

/-- Internal `set`: route to `records[id % capacity]` and apply the shard
`Set` there. Indexing with a negative or out-of-range index is a Go
runtime panic, `none`. -/
def set (a : AckManager α β) (id : Int) (f : α) (v : β) (now : Int) :
    Option (AckManager α β) :=
  let index := a.shardIndex id
  if h : 0 ≤ index ∧ index.toNat < a.records.length then
    let r := a.records.get ⟨index.toNat, h.2⟩
    some { a with records := a.records.set index.toNat (r.Set id f v now) }
  else none

/-- Internal `ack`: route to `records[id % capacity]` and apply the shard
`Remove` there; a panic in either the indexing or `Remove` is `none`. -/
def ack (a : AckManager α β) (id : Int) (f : α) :
    Option (AckManager α β) :=
  let index := a.shardIndex id
  if h : 0 ≤ index ∧ index.toNat < a.records.length then
    match recorder.Remove a.canAck (a.records.get ⟨index.toNat, h.2⟩) id f with
    | none => none
    | some r' => some { a with records := a.records.set index.toNat r' }
  else none

/-- Public `Set`: in async mode build a message stamped `now` and try a
non-blocking send on the set-channel — full buffer yields
`ErrMsgRecordFailed` and no state change; in sync mode apply the internal
`set` directly and return no error. The result is the returned error (if
any) paired with the post state; `none` is a panic. -/
def Set (a : AckManager α β) (id : Int) (f : α) (v : β) (now : Int) :
    Option (Option AckError × AckManager α β) :=
  if a.async then
    let m : Msg α β := ⟨id, now, f, v⟩
    if (a.setCh.length : Int) < a.setBufSize then
      some (none, { a with setCh := a.setCh ++ [m] })
    else some (some .ErrMsgRecordFailed, a)
  else
    match a.set id f v now with
    | none => none
    | some a' => some (none, a')

/-- Public `Ack`: in async mode build a message carrying only `id` and the
flag and try a non-blocking send on the ack-channel — full buffer yields
`ErrMsgAckFailed` and no state change; in sync mode apply the internal
`ack` directly and return no error. -/
def Ack (a : AckManager α β) (id : Int) (f : α) :
    Option (Option AckError × AckManager α β) :=
  if a.async then
    if (a.ackCh.length : Int) < a.ackBufSize then
      some (none, { a with ackCh := a.ackCh ++ [(id, f)] })
    else some (some .ErrMsgAckFailed, a)
  else
    match a.ack id f with
    | none => none
    | some a' => some (none, a')

/-- `Get`: fan out to every shard's `Get` and concatenate the results in
shard order. Reads only. -/
def Get (a : AckManager α β) (duration now : Int) : List (Msg α β) :=
  a.records.foldl (fun res r => res ++ r.Get duration now) []

/-- `ReAllocate`: fan out to every shard's `ReAllocate` in order. Each
shard call ends in the `RUnlock` fatal, so the loop dies on its first
iteration and the fan-out completes only for a manager with no shards
(which `NewAckManager` can never produce, capacity being positive). -/
def ReAllocate (a : AckManager α β) : Option (AckManager α β) :=
  (a.records.foldl
      (fun acc r => acc.bind fun rs =>
        (recorder.ReAllocate r).map fun r' => rs ++ [r'])
      (some [])).map
    fun rs => { a with records := rs }

/-- `Start`'s guarded transition: the compare-and-swap `status 0 → 1`,
gated on async mode. The returned flag is whether a worker goroutine was
spawned on this call. -/
def Start (a : AckManager α β) : AckManager α β × Bool :=
  if a.async = true ∧ a.status = 0 then ({ a with status := 1 }, true)
  else (a, false)

/-- `Stop`'s guarded transition: the compare-and-swap `status 1 → 0`,
gated on async mode; on success the stop channel is closed. -/
def Stop (a : AckManager α β) : AckManager α β × Bool :=
  if a.async = true ∧ a.status = 1 then ({ a with status := 0 }, true)
  else (a, false)

end AckManager

/-- Which arm of the worker's `select` fires. -/
inductive SelectCase where
  | fromSet
  | fromAck
  | fromStop
  deriving Repr, DecidableEq

/-- The complete lifetime of the goroutine spawned by `Start`, as written:
its body is a single `select` — receive one set-channel message and apply
the internal `set`, or receive one ack-channel message and apply the
internal `ack`, or observe the closed stop channel and return — after
which the goroutine function ends (there is no enclosing loop). `choice`
resolves the `select` nondeterminism and must pick a ready arm
(`none` otherwise, which also covers a panic while applying the item);
the `Nat` is how many queue items the goroutine processed in total before
exiting. -/
def workerGoroutine (a : Ack.AckManager α β) (choice : SelectCase)
    (stopClosed : Bool) (now : Int) :
    Option (Ack.AckManager α β × Nat) :=
  match choice with
  | .fromSet =>
      match a.setCh with
      | [] => none
      | m :: rest =>
          match Ack.AckManager.set { a with setCh := rest } m.ID m.Flag
              m.Value now with
          | none => none
          | some a' => some (a', 1)
  | .fromAck =>
      match a.ackCh with
      | [] => none
      | (id, f) :: rest =>
          match Ack.AckManager.ack { a with ackCh := rest } id f with
          | none => none
          | some a' => some (a', 1)
  | .fromStop => if stopClosed then some (a, 0) else none

/-! Concrete states used to exercise the theorems on closed inputs. -/

/-- An async manager with two messages already buffered on the set-channel. -/
def exTwoQueued : AckManager Int Int :=
  { capacity := 1, records := [⟨[]⟩], canAck := none, async := true,
    setCh := [⟨1, 100, 0, 10⟩, ⟨2, 150, 0, 20⟩], setBufSize := 4,
    ackCh := [], ackBufSize := 4, status := 1 }

/-- An async manager with empty channels and one empty shard. -/
def exAsyncEmpty : AckManager Int Int :=
  { capacity := 1, records := [⟨[]⟩], canAck := none, async := true,
    setCh := [], setBufSize := 4, ackCh := [], ackBufSize := 4, status := 1 }

/-- A sync manager with two empty shards. -/
def exSyncTwo : AckManager Int Int :=
  { capacity := 2, records := [⟨[]⟩, ⟨[]⟩], canAck := none, async := false,
    setCh := [], setBufSize := 0, ackCh := [], ackBufSize := 0, status := 0 }

/-- An async manager whose two channels have zero capacity, hence are
always full. -/
def exAsyncFull : AckManager Int Int :=
  { capacity := 1, records := [⟨[]⟩], canAck := none, async := true,
    setCh := [], setBufSize := 0, ackCh := [], ackBufSize := 0, status := 0 }

/-- The `setFlag ≤ ackFlag` predicate of the spec's worked example. -/
def leFlag : CanAckPred Int := fun setFlag ackFlag => decide (setFlag ≤ ackFlag)

/-- A shard holding the single record `(1, ts 100, flag 20, value 5)`. -/
def exShardOne : recorder Int Int := ⟨[(1, ⟨1, 100, 20, 5⟩)]⟩

/-- A shard holding records for ids 1 and 2 with timestamps 10 and 90. -/
def exShardTwo : recorder Int Int := ⟨[(1, ⟨1, 10, 0, 5⟩), (2, ⟨2, 90, 0, 6⟩)]⟩

/-- A sync manager over `exShardOne` and `exShardTwo`. -/
def exMgrLoaded : AckManager Int Int :=
  { capacity := 2, records := [exShardOne, exShardTwo], canAck := none,
    async := false, setCh := [], setBufSize := 0, ackCh := [],
    ackBufSize := 0, status := 0 }

/-- The state `exTwoQueued` reaches after the spawned goroutine's entire
run (one `select`, receiving the first buffered message at time 200). -/
def exTwoQueuedAfter : AckManager Int Int :=
  { capacity := 1, records := [⟨[(1, ⟨1, 200, 0, 10⟩)]⟩], canAck := none,
    async := true, setCh := [⟨2, 150, 0, 20⟩], setBufSize := 4,
    ackCh := [], ackBufSize := 4, status := 1 }

/-! ## Laws of the Go-map embedding -/

theorem mapInsert_cons_self (rest : List (Int × Msg α β)) (k : Int)
    (v v0 : Msg α β) : mapInsert ((k, v0) :: rest) k v = (k, v) :: rest := by
  simp [mapInsert]

theorem mapInsert_cons_ne (rest : List (Int × Msg α β)) (k k0 : Int)
    (v v0 : Msg α β) (h : k0 ≠ k) :
    mapInsert ((k0, v0) :: rest) k v = (k0, v0) :: mapInsert rest k v := by
  simp [mapInsert, h]

theorem mapLookup_cons_self (rest : List (Int × Msg α β)) (k : Int)
    (v0 : Msg α β) : mapLookup ((k, v0) :: rest) k = some v0 := by
  simp [mapLookup]

theorem mapLookup_cons_ne (rest : List (Int × Msg α β)) (k k0 : Int)
    (v0 : Msg α β) (h : k0 ≠ k) :
    mapLookup ((k0, v0) :: rest) k = mapLookup rest k := by
  simp [mapLookup, h]

theorem mapErase_cons_self (rest : List (Int × Msg α β)) (k : Int)
    (v0 : Msg α β) : mapErase ((k, v0) :: rest) k = mapErase rest k := by
  simp [mapErase]

theorem mapErase_cons_ne (rest : List (Int × Msg α β)) (k k0 : Int)
    (v0 : Msg α β) (h : k0 ≠ k) :
    mapErase ((k0, v0) :: rest) k = (k0, v0) :: mapErase rest k := by
  simp [mapErase, h]

theorem mapLookup_mapInsert_self (s : List (Int × Msg α β)) (k : Int)
    (v : Msg α β) : mapLookup (mapInsert s k v) k = some v := by
  induction s with
  | nil => simp [mapInsert, mapLookup]
  | cons kv rest ih =>
      obtain ⟨k0, v0⟩ := kv
      by_cases h : k0 = k
      · subst h
        rw [mapInsert_cons_self, mapLookup_cons_self]
      · rw [mapInsert_cons_ne rest k k0 v v0 h, mapLookup_cons_ne _ _ _ _ h, ih]

theorem mapLookup_mapInsert_ne (s : List (Int × Msg α β)) (k k' : Int)
    (v : Msg α β) (h : k' ≠ k) :
    mapLookup (mapInsert s k v) k' = mapLookup s k' := by
  induction s with
  | nil => simp [mapInsert, mapLookup, Ne.symm h]
  | cons kv rest ih =>
      obtain ⟨k0, v0⟩ := kv
      by_cases h0 : k0 = k
      · subst h0
        rw [mapInsert_cons_self, mapLookup_cons_ne _ _ _ _ (Ne.symm h),
          mapLookup_cons_ne _ _ _ _ (Ne.symm h)]
      · rw [mapInsert_cons_ne rest k k0 v v0 h0]
        by_cases h1 : k0 = k'
        · subst h1
          rw [mapLookup_cons_self, mapLookup_cons_self]
        · rw [mapLookup_cons_ne _ _ _ _ h1, mapLookup_cons_ne _ _ _ _ h1, ih]

theorem mem_keys_mapInsert (s : List (Int × Msg α β)) (k : Int)
    (v : Msg α β) (x : Int) (hx : x ∈ (mapInsert s k v).map Prod.fst) :
    x = k ∨ x ∈ s.map Prod.fst := by
  induction s with
  | nil => simpa [mapInsert] using hx
  | cons kv rest ih =>
      obtain ⟨k0, v0⟩ := kv
      by_cases h0 : k0 = k
      · subst h0
        rw [mapInsert_cons_self] at hx
        simp only [List.map_cons, List.mem_cons] at hx ⊢
        tauto
      · rw [mapInsert_cons_ne rest k k0 v v0 h0] at hx
        simp only [List.map_cons, List.mem_cons] at hx ⊢
        rcases hx with hx | hx
        · tauto
        · rcases ih hx with h | h <;> tauto

theorem nodupKeys_mapInsert (s : List (Int × Msg α β)) (k : Int)
    (v : Msg α β) (h : NodupKeys s) : NodupKeys (mapInsert s k v) := by
  induction s with
  | nil => simp [mapInsert, NodupKeys]
  | cons kv rest ih =>
      obtain ⟨k0, v0⟩ := kv
      unfold NodupKeys at h ⊢
      simp only [List.map_cons, List.nodup_cons] at h
      by_cases h0 : k0 = k
      · subst h0
        rw [mapInsert_cons_self]
        simp only [List.map_cons, List.nodup_cons]
        exact h
      · rw [mapInsert_cons_ne rest k k0 v v0 h0]
        simp only [List.map_cons, List.nodup_cons]
        refine ⟨fun hmem => ?_, ih h.2⟩
        rcases mem_keys_mapInsert rest k v k0 hmem with h1 | h1
        · exact h0 h1
        · exact h.1 h1

theorem mapLookup_mapErase_self (s : List (Int × Msg α β)) (k : Int) :
    mapLookup (mapErase s k) k = none := by
  induction s with
  | nil => rfl
  | cons kv rest ih =>
      obtain ⟨k0, v0⟩ := kv
      by_cases h0 : k0 = k
      · subst h0
        rw [mapErase_cons_self, ih]
      · rw [mapErase_cons_ne _ _ _ _ h0, mapLookup_cons_ne _ _ _ _ h0, ih]

theorem mapLookup_mapErase_ne (s : List (Int × Msg α β)) (k k' : Int)
    (h : k' ≠ k) : mapLookup (mapErase s k) k' = mapLookup s k' := by
  induction s with
  | nil => rfl
  | cons kv rest ih =>
      obtain ⟨k0, v0⟩ := kv
      by_cases h0 : k0 = k
      · subst h0
        rw [mapErase_cons_self, mapLookup_cons_ne _ _ _ _ (Ne.symm h), ih]
      · rw [mapErase_cons_ne _ _ _ _ h0]
        by_cases h1 : k0 = k'
        · subst h1
          rw [mapLookup_cons_self, mapLookup_cons_self]
        · rw [mapLookup_cons_ne _ _ _ _ h1, mapLookup_cons_ne _ _ _ _ h1, ih]

theorem mapErase_sublist (s : List (Int × Msg α β)) (k : Int) :
    List.Sublist (mapErase s k) s := by
  induction s with
  | nil => simp [mapErase]
  | cons kv rest ih =>
      obtain ⟨k0, v0⟩ := kv
      by_cases h0 : k0 = k
      · rw [h0, mapErase_cons_self]
        exact ih.cons _
      · rw [mapErase_cons_ne _ _ _ _ h0]
        exact ih.cons₂ _

theorem nodupKeys_mapErase (s : List (Int × Msg α β)) (k : Int)
    (h : NodupKeys s) : NodupKeys (mapErase s k) := by
  unfold NodupKeys at *
  exact List.Nodup.sublist ((mapErase_sublist s k).map Prod.fst) h

theorem mapInsert_eq_append (s : List (Int × Msg α β)) (k : Int)
    (v : Msg α β) (h : k ∉ s.map Prod.fst) :
    mapInsert s k v = s ++ [(k, v)] := by
  induction s with
  | nil => simp [mapInsert]
  | cons kv rest ih =>
      obtain ⟨k0, v0⟩ := kv
      simp only [List.map_cons, List.mem_cons] at h
      push_neg at h
      rw [mapInsert_cons_ne rest k k0 v v0 (Ne.symm h.1), ih h.2]
      simp

theorem nodupKeys_foldl_mapInsert (s : List (Int × Msg α β)) :
    ∀ acc : List (Int × Msg α β), NodupKeys acc →
      NodupKeys (s.foldl (fun a kv => mapInsert a kv.1 kv.2) acc) := by
  induction s with
  | nil => intro acc h; simpa using h
  | cons kv rest ih =>
      intro acc h
      exact ih _ (nodupKeys_mapInsert acc kv.1 kv.2 h)

theorem mapLookup_foldl_mapInsert (s : List (Int × Msg α β)) :
    ∀ acc : List (Int × Msg α β), NodupKeys (acc ++ s) → ∀ k : Int,
      mapLookup (s.foldl (fun a kv => mapInsert a kv.1 kv.2) acc) k =
        mapLookup (acc ++ s) k := by
  induction s with
  | nil => intro acc _ k; simp
  | cons kv rest ih =>
      intro acc h k
      obtain ⟨k0, v0⟩ := kv
      have hcons : (k0 :: (acc.map Prod.fst ++ rest.map Prod.fst)).Nodup := by
        refine List.nodup_middle.mp ?_
        unfold NodupKeys at h
        simpa using h
      have hmid := List.nodup_cons.mp hcons
      have hk0 : k0 ∉ acc.map Prod.fst := fun hc =>
        hmid.1 (List.mem_append_left _ hc)
      have hassoc : (acc ++ [(k0, v0)]) ++ rest = acc ++ (k0, v0) :: rest := by
        simp
      have hnd : NodupKeys ((acc ++ [(k0, v0)]) ++ rest) := by
        rw [hassoc]; exact h
      calc mapLookup (((k0, v0) :: rest).foldl
          (fun a kv => mapInsert a kv.1 kv.2) acc) k
      _ = mapLookup (rest.foldl (fun a kv => mapInsert a kv.1 kv.2)
            (acc ++ [(k0, v0)])) k := by
        rw [List.foldl_cons, mapInsert_eq_append acc k0 v0 hk0]
      _ = mapLookup ((acc ++ [(k0, v0)]) ++ rest) k := ih _ hnd k
      _ = mapLookup (acc ++ (k0, v0) :: rest) k := by rw [hassoc]

/-- Per-shard content preservation of the map `ReAllocate` installs
before its fatal unlock, under the map invariant. -/
theorem recorder_reAllocateCopy_lookup (r : recorder α β)
    (h : NodupKeys r.msgs) (k : Int) :
    mapLookup (recorder.reAllocateCopy r).msgs k = mapLookup r.msgs k := by
  have h0 : NodupKeys (([] : List (Int × Msg α β)) ++ r.msgs) := by simpa using h
  simpa [recorder.reAllocateCopy] using mapLookup_foldl_mapInsert r.msgs [] h0 k

/-- Membership in one shard's `Get`. -/
theorem mem_recorder_Get (r : recorder α β) (d now : Int) (m : Msg α β) :
    m ∈ r.Get d now ↔
      0 < d ∧ d ≤ now - m.Timestamp ∧ ∃ k, (k, m) ∈ r.msgs := by
  unfold recorder.Get
  by_cases hd : d ≤ 0
  · simp only [if_pos hd, List.not_mem_nil, false_iff]
    rintro ⟨h1, -, -⟩
    omega
  · simp only [if_neg hd, List.mem_map, List.mem_filter, decide_eq_true_eq]
    constructor
    · rintro ⟨⟨k, m'⟩, ⟨hmem, hage⟩, rfl⟩
      exact ⟨by omega, hage, k, hmem⟩
    · rintro ⟨-, hage, k, hmem⟩
      exact ⟨(k, m), ⟨hmem, hage⟩, rfl⟩

/-- Membership in a fold of list concatenations. -/
theorem mem_foldl_append {γ δ : Type} (g : δ → List γ) (l : List δ) (x : γ) :
    ∀ init : List γ,
      (x ∈ l.foldl (fun res r => res ++ g r) init ↔
        x ∈ init ∨ ∃ r ∈ l, x ∈ g r) := by
  induction l with
  | nil => intro init; simp
  | cons r rest ih =>
      intro init
      rw [List.foldl_cons, ih]
      simp only [List.mem_append, List.mem_cons]
      constructor
      · rintro ((hx | hx) | ⟨r', hr', hx⟩)
        · exact Or.inl hx
        · exact Or.inr ⟨r, Or.inl rfl, hx⟩
        · exact Or.inr ⟨r', Or.inr hr', hx⟩
      · rintro (hx | ⟨r', (rfl | hr'), hx⟩)
        · exact Or.inl (Or.inl hx)
        · exact Or.inl (Or.inr hx)
        · exact Or.inr ⟨r', hr', hx⟩

end Ack

/-! ## The claims -/

/-- C1: the claim — `Remove`/`Ack` on an unknown identifier is a silent
no-op even with a predicate configured, and the predicate is never invoked
without a present record — is violated by the code: `recorder.Remove`
evaluates `r.am.canAck(m.Flag, f)` before checking the lookup's `ok` flag,
so on an empty shard with a predicate configured the nil `*msg` is
dereferenced and the call faults (`none`); without a predicate the same
call is the intended silent no-op. -/
theorem C1_remove_missing_with_predicate_faults :
    Ack.recorder.Remove (some Ack.leFlag) (⟨[]⟩ : Ack.recorder Int Int) 7 0 =
      none ∧
    Ack.recorder.Remove none (⟨[]⟩ : Ack.recorder Int Int) 7 0 =
      some ⟨[]⟩ :=
  ⟨rfl, rfl⟩

/-- C2: the claim — the spawned worker repeatedly processes items (more
than one in total) until the stop signal — is violated: the goroutine body
is a single `select` with no loop, so its complete run (`workerGoroutine`)
processes exactly one item and exits. Started on a manager with two
buffered set-messages, the goroutine consumes the first, applies it, and
terminates with the second still buffered and no worker left running. -/
theorem C2_worker_single_wake :
    Ack.workerGoroutine Ack.exTwoQueued Ack.SelectCase.fromSet false 200 =
      some (Ack.exTwoQueuedAfter, 1) ∧
    Ack.exTwoQueuedAfter.setCh.length = 1 :=
  ⟨rfl, rfl⟩

/-- C3: the claim — the timestamp captured at enqueue time is the one
stored when the worker applies the item — is violated: `Set` at time 100
buffers a message stamped 100, but the worker passes only `ID`, `Flag`,
`Value` to the internal shard `Set`, which stamps a fresh clock reading,
so after the worker runs at time 200 the stored record's timestamp is 200,
not 100. -/
theorem C3_enqueue_timestamp_not_stored :
    (Ack.AckManager.Set Ack.exAsyncEmpty 1 0 10 100).map
        (fun r => (r.1, r.2.setCh.map Ack.Msg.Timestamp)) =
      some (none, [100]) ∧
    ((Ack.AckManager.Set Ack.exAsyncEmpty 1 0 10 100).bind
        (fun r => Ack.workerGoroutine r.2 Ack.SelectCase.fromSet false 200)).map
        (fun r => r.1.records.map Ack.recorder.msgs) =
      some [[(1, ⟨1, 200, 0, 10⟩)]] :=
  ⟨rfl, rfl⟩

/-- C4 counterexample: for `capacity = 2` and `id = -1` the claim says the
operation goes to shard `(-1) mod 2 = 1`; the code computes Go's truncated
remainder `-1 % 2 = -1` and indexing `records[-1]` faults, so both the
internal `set` and `ack` panic instead of reaching shard 1. -/
theorem C4_counterexample :
    Ack.AckManager.set Ack.exSyncTwo (-1) 0 0 100 = none ∧
    Ack.AckManager.ack Ack.exSyncTwo (-1) 0 = none ∧
    Ack.AckManager.shardIndex Ack.exSyncTwo (-1) = -1 ∧
    (-1 : Int) % 2 = 1 :=
  ⟨rfl, rfl, rfl, by decide⟩

/-- C4 (amended): for every Manager and every *nonnegative* identifier,
with positive capacity and one shard per capacity unit, the routing index
is Go's truncated remainder, which then coincides with the mathematical
modulus `id mod capacity`, lies in `[0, capacity)`, depends only on the
capacity and the identifier (hence is the same on every call), and the
internal `set` succeeds and touches exactly the shard at that index (as
does `ack` whenever it completes); for negative identifiers the truncated
remainder is nonpositive and a nonzero one faults (see the
counterexample). -/
theorem C4_routing_nonneg_ids {α β : Type} (a : Ack.AckManager α β)
    (id : Int) (f : α) (v : β) (now : Int)
    (h0 : 0 ≤ id) (hc : 0 < a.capacity)
    (hlen : (a.records.length : Int) = a.capacity) :
    Ack.AckManager.shardIndex a id = id % a.capacity ∧
    0 ≤ Ack.AckManager.shardIndex a id ∧
    Ack.AckManager.shardIndex a id < a.capacity ∧
    (∀ b : Ack.AckManager α β, b.capacity = a.capacity →
      Ack.AckManager.shardIndex b id = Ack.AckManager.shardIndex a id) ∧
    (∃ a', Ack.AckManager.set a id f v now = some a' ∧
      a'.records[(Ack.AckManager.shardIndex a id).toNat]? =
        (a.records[(Ack.AckManager.shardIndex a id).toNat]?).map
          (fun r => r.Set id f v now) ∧
      ∀ j : Nat, j ≠ (Ack.AckManager.shardIndex a id).toNat →
        a'.records[j]? = a.records[j]?) ∧
    (∀ a', Ack.AckManager.ack a id f = some a' →
      ∀ j : Nat, j ≠ (Ack.AckManager.shardIndex a id).toNat →
        a'.records[j]? = a.records[j]?) := by
  have hidx : Ack.AckManager.shardIndex a id = id % a.capacity := by
    unfold Ack.AckManager.shardIndex
    exact Int.tmod_eq_emod h0 (le_of_lt hc)
  have hnn : 0 ≤ Ack.AckManager.shardIndex a id := by
    rw [hidx]
    exact Int.emod_nonneg id (by omega)
  have hlt : Ack.AckManager.shardIndex a id < a.capacity := by
    rw [hidx]
    exact Int.emod_lt_of_pos id hc
  have hcast : ((Ack.AckManager.shardIndex a id).toNat : Int) =
      Ack.AckManager.shardIndex a id := Int.toNat_of_nonneg hnn
  have hcond : 0 ≤ Ack.AckManager.shardIndex a id ∧
      (Ack.AckManager.shardIndex a id).toNat < a.records.length := by
    refine ⟨hnn, ?_⟩
    omega
  refine ⟨hidx, hnn, hlt, ?_, ?_, ?_⟩
  · intro b hb
    unfold Ack.AckManager.shardIndex
    rw [hb]
  · obtain ⟨a', ha'⟩ : ∃ a', Ack.AckManager.set a id f v now = some a' := by
      simp only [Ack.AckManager.set]
      rw [dif_pos hcond]
      exact ⟨_, rfl⟩
    have hrec : a'.records = a.records.set
        (Ack.AckManager.shardIndex a id).toNat
        ((a.records.get ⟨(Ack.AckManager.shardIndex a id).toNat,
          hcond.2⟩).Set id f v now) := by
      simp only [Ack.AckManager.set] at ha'
      rw [dif_pos hcond] at ha'
      cases ha'
      rfl
    refine ⟨a', ha', ?_, ?_⟩
    · rw [hrec]
      simp [List.getElem?_set_self', List.getElem?_eq_getElem hcond.2]
    · intro j hj
      rw [hrec]
      simp [List.getElem?_set_ne (fun hcontra => hj hcontra.symm)]
  · intro a' ha' j hj
    simp only [Ack.AckManager.ack] at ha'
    rw [dif_pos hcond] at ha'
    rcases hrm : Ack.recorder.Remove a.canAck
        (a.records.get ⟨(Ack.AckManager.shardIndex a id).toNat, hcond.2⟩)
        id f with _ | r'
    · rw [hrm] at ha'
      cases ha'
    · rw [hrm] at ha'
      cases ha'
      dsimp only
      simp [List.getElem?_set_ne (fun hcontra => hj hcontra.symm)]

/-- Witness for the amended C4 at `id = 5`, `capacity = 2`: apply the
theorem and read off the index equality. -/
theorem C4_witness :
    Ack.AckManager.shardIndex Ack.exSyncTwo 5 = 5 % 2 ∧
    0 ≤ Ack.AckManager.shardIndex Ack.exSyncTwo 5 ∧
    Ack.AckManager.shardIndex Ack.exSyncTwo 5 < 2 :=
  ⟨(C4_routing_nonneg_ids Ack.exSyncTwo 5 0 0 100 (by decide) (by decide)
      (by decide)).1,
   (C4_routing_nonneg_ids Ack.exSyncTwo 5 0 0 100 (by decide) (by decide)
      (by decide)).2.1,
   (C4_routing_nonneg_ids Ack.exSyncTwo 5 0 0 100 (by decide) (by decide)
      (by decide)).2.2.1⟩

/-- C5: when a record for `id` is present, `Remove` deletes it exactly
when the predicate is absent or `predicate(record.flag, ackFlag)` is true;
when the predicate returns false the whole shard — hence the record with
its original timestamp, flag and value — is returned unchanged. The extra
conjuncts show the deletion really removes the binding for `id` and
touches no other identifier. -/
theorem C5_remove_present_record {α β : Type}
    (canAck : Option (Ack.CanAckPred α)) (r : Ack.recorder α β) (id : Int)
    (f : α) (m : Ack.Msg α β) (hm : Ack.mapLookup r.msgs id = some m) :
    Ack.recorder.Remove canAck r id f =
      some (if (match canAck with
                | none => true
                | some p => p m.Flag f) = true
            then (⟨Ack.mapErase r.msgs id⟩ : Ack.recorder α β) else r) ∧
    Ack.mapLookup (Ack.mapErase r.msgs id) id = none ∧
    (∀ k, k ≠ id →
      Ack.mapLookup (Ack.mapErase r.msgs id) k = Ack.mapLookup r.msgs k) := by
  refine ⟨?_, Ack.mapLookup_mapErase_self r.msgs id,
    fun k hk => Ack.mapLookup_mapErase_ne r.msgs id k hk⟩
  cases canAck with
  | none => simp [Ack.recorder.Remove, hm]
  | some p => simp [Ack.recorder.Remove, hm]

/-- Witness for C5: the spec's worked example on `exShardOne`
(flag 20): `Ack(1, 15)` retains the record unchanged, `Ack(1, 25)`
removes it. -/
theorem C5_witness :
    Ack.recorder.Remove (some Ack.leFlag) Ack.exShardOne 1 15 =
      some Ack.exShardOne ∧
    Ack.recorder.Remove (some Ack.leFlag) Ack.exShardOne 1 25 =
      some ⟨Ack.mapErase Ack.exShardOne.msgs 1⟩ := by
  have h15 := C5_remove_present_record (some Ack.leFlag) Ack.exShardOne 1 15
    ⟨1, 100, 20, 5⟩ (by decide)
  have h25 := C5_remove_present_record (some Ack.leFlag) Ack.exShardOne 1 25
    ⟨1, 100, 20, 5⟩ (by decide)
  refine ⟨?_, ?_⟩
  · rw [h15.1]
    decide
  · rw [h25.1]
    decide

/-- C6: a shard whose map has no duplicate keys keeps that invariant under
every operation, and a later `Set` for an existing identifier replaces the
record entirely — the binding for `id` becomes exactly the fresh record
stamped with the later call's time — while every other identifier's
binding is untouched. (`Get` returns a value and leaves the shard state
untouched by construction, so only the mutators appear. `ReAllocate`,
the spec's `Compact`, never returns — its `RUnlock` fatal, see C9 — so
the shard states it can expose are the installed rebuild `reAllocateCopy`
in force up to the fatal, and that rebuild satisfies the invariant too.) -/
theorem C6_single_record_per_id {α β : Type} (r : Ack.recorder α β)
    (hnd : Ack.NodupKeys r.msgs) :
    (∀ (id : Int) (f : α) (v : β) (now : Int),
      Ack.NodupKeys ((r.Set id f v now).msgs) ∧
      Ack.mapLookup ((r.Set id f v now).msgs) id = some ⟨id, now, f, v⟩ ∧
      ∀ k, k ≠ id →
        Ack.mapLookup ((r.Set id f v now).msgs) k = Ack.mapLookup r.msgs k) ∧
    (∀ (canAck : Option (Ack.CanAckPred α)) (id : Int) (f : α)
        (r' : Ack.recorder α β),
      Ack.recorder.Remove canAck r id f = some r' → Ack.NodupKeys r'.msgs) ∧
    Ack.NodupKeys (Ack.recorder.reAllocateCopy r).msgs := by
  refine ⟨?_, ?_, ?_⟩
  · intro id f v now
    exact ⟨Ack.nodupKeys_mapInsert r.msgs id ⟨id, now, f, v⟩ hnd,
      Ack.mapLookup_mapInsert_self r.msgs id ⟨id, now, f, v⟩,
      fun k hk => Ack.mapLookup_mapInsert_ne r.msgs id k ⟨id, now, f, v⟩ hk⟩
  · intro canAck id f r' hrm
    unfold Ack.recorder.Remove at hrm
    cases canAck with
    | none =>
        simp only [Option.some.injEq] at hrm
        subst hrm
        by_cases hx : (Ack.mapLookup r.msgs id).isSome
        · simp only [hx, if_true]
          exact Ack.nodupKeys_mapErase r.msgs id hnd
        · simp only [hx, if_false]
          exact hnd
    | some p =>
        cases hl : Ack.mapLookup r.msgs id with
        | none => rw [hl] at hrm; cases hrm
        | some m =>
            rw [hl] at hrm
            simp only [Option.some.injEq] at hrm
            subst hrm
            by_cases hp : p m.Flag f
            · simp only [hp, if_true]
              exact Ack.nodupKeys_mapErase r.msgs id hnd
            · simp only [hp, if_false]
              exact hnd
  · exact Ack.nodupKeys_foldl_mapInsert r.msgs [] (by simp [Ack.NodupKeys])

/-- Witness for C6: overwriting id 1 in `exShardOne` (timestamp 100)
resets the stored record to the later call's data and time. -/
theorem C6_witness :
    Ack.mapLookup ((Ack.exShardOne.Set 1 7 8 300).msgs) 1 =
      some ⟨1, 300, 7, 8⟩ :=
  ((C6_single_record_per_id Ack.exShardOne (by decide)).1 1 7 8 300).2.1

/-- C7: in async mode `Set`/`Ack` return `ErrMsgRecordFailed` /
`ErrMsgAckFailed` exactly when the corresponding bounded queue is full
(no free slot below the configured capacity), never touch the shards, and
on the error path return the state entirely unchanged; in sync mode no
error is ever returned. -/
theorem C7_backpressure_exactly_on_full {α β : Type} (a : Ack.AckManager α β)
    (id : Int) (f : α) (v : β) (now : Int) :
    (a.async = true →
      ((∃ a2, Ack.AckManager.Set a id f v now =
          some (some Ack.AckError.ErrMsgRecordFailed, a2)) ↔
        a.setBufSize ≤ (a.setCh.length : Int)) ∧
      (∀ e a2, Ack.AckManager.Set a id f v now = some (e, a2) →
        a2.records = a.records ∧ (e ≠ none → a2 = a)) ∧
      ((∃ a2, Ack.AckManager.Ack a id f =
          some (some Ack.AckError.ErrMsgAckFailed, a2)) ↔
        a.ackBufSize ≤ (a.ackCh.length : Int)) ∧
      (∀ e a2, Ack.AckManager.Ack a id f = some (e, a2) →
        a2.records = a.records ∧ (e ≠ none → a2 = a))) ∧
    (a.async = false →
      (∀ e a2, Ack.AckManager.Set a id f v now = some (e, a2) → e = none) ∧
      (∀ e a2, Ack.AckManager.Ack a id f = some (e, a2) → e = none)) := by
  constructor
  · intro ha
    have hset : Ack.AckManager.Set a id f v now =
        if (a.setCh.length : Int) < a.setBufSize
        then some (none, { a with setCh := a.setCh ++ [⟨id, now, f, v⟩] })
        else some (some Ack.AckError.ErrMsgRecordFailed, a) := by
      simp [Ack.AckManager.Set, ha]
    have hack : Ack.AckManager.Ack a id f =
        if (a.ackCh.length : Int) < a.ackBufSize
        then some (none, { a with ackCh := a.ackCh ++ [(id, f)] })
        else some (some Ack.AckError.ErrMsgAckFailed, a) := by
      simp [Ack.AckManager.Ack, ha]
    refine ⟨?_, ?_, ?_, ?_⟩
    · rw [hset]
      by_cases hfull : (a.setCh.length : Int) < a.setBufSize
      · simp only [if_pos hfull]
        constructor
        · rintro ⟨a2, h2⟩
          cases h2
        · intro hge
          omega
      · simp only [if_neg hfull]
        constructor
        · intro h2
          omega
        · intro hge
          exact ⟨a, rfl⟩
    · intro e a2 h2
      rw [hset] at h2
      by_cases hfull : (a.setCh.length : Int) < a.setBufSize
      · rw [if_pos hfull] at h2
        cases h2
        exact ⟨rfl, fun hne => absurd rfl hne⟩
      · rw [if_neg hfull] at h2
        cases h2
        exact ⟨rfl, fun _ => rfl⟩
    · rw [hack]
      by_cases hfull : (a.ackCh.length : Int) < a.ackBufSize
      · simp only [if_pos hfull]
        constructor
        · rintro ⟨a2, h2⟩
          cases h2
        · intro hge
          omega
      · simp only [if_neg hfull]
        constructor
        · intro h2
          omega
        · intro hge
          exact ⟨a, rfl⟩
    · intro e a2 h2
      rw [hack] at h2
      by_cases hfull : (a.ackCh.length : Int) < a.ackBufSize
      · rw [if_pos hfull] at h2
        cases h2
        exact ⟨rfl, fun hne => absurd rfl hne⟩
      · rw [if_neg hfull] at h2
        cases h2
        exact ⟨rfl, fun _ => rfl⟩
  · intro ha
    constructor
    · intro e a2 h2
      unfold Ack.AckManager.Set at h2
      rw [ha] at h2
      simp only [Bool.false_eq_true, if_false] at h2
      cases hs : Ack.AckManager.set a id f v now with
      | none => rw [hs] at h2; cases h2
      | some a3 => rw [hs] at h2; cases h2; rfl
    · intro e a2 h2
      unfold Ack.AckManager.Ack at h2
      rw [ha] at h2
      simp only [Bool.false_eq_true, if_false] at h2
      cases hs : Ack.AckManager.ack a id f with
      | none => rw [hs] at h2; cases h2
      | some a3 => rw [hs] at h2; cases h2; rfl

/-- Witness for C7: on `exAsyncFull` (zero-capacity queues) both calls
report backpressure. -/
theorem C7_witness :
    (∃ a2, Ack.AckManager.Set Ack.exAsyncFull 1 0 0 100 =
      some (some Ack.AckError.ErrMsgRecordFailed, a2)) ∧
    (∃ a2, Ack.AckManager.Ack Ack.exAsyncFull 1 0 =
      some (some Ack.AckError.ErrMsgAckFailed, a2)) :=
  ⟨(((C7_backpressure_exactly_on_full Ack.exAsyncFull 1 0 0 100).1 rfl).1).mpr
      (by decide),
   (((C7_backpressure_exactly_on_full Ack.exAsyncFull 1 0 0 100).1
      rfl).2.2.1).mpr (by decide)⟩

/-- C8: `Get` over the Manager returns, for `duration > 0`, exactly the
stored records (over all shards) whose age `now − timestamp` is at least
the duration, and for `duration ≤ 0` the empty sequence; the operation is
a pure reader in the embedding (both the shard `Get` and the fan-out do
not produce a new state), and every returned record is literally a stored
binding of some shard, hence unaltered. -/
theorem C8_expired_exactly_aged {α β : Type} (a : Ack.AckManager α β)
    (d now : Int) :
    (d ≤ 0 → Ack.AckManager.Get a d now = []) ∧
    ∀ m : Ack.Msg α β, m ∈ Ack.AckManager.Get a d now ↔
      (0 < d ∧ d ≤ now - m.Timestamp ∧
        ∃ r ∈ a.records, ∃ k, (k, m) ∈ r.msgs) := by
  have hmem : ∀ m : Ack.Msg α β, m ∈ Ack.AckManager.Get a d now ↔
      (0 < d ∧ d ≤ now - m.Timestamp ∧
        ∃ r ∈ a.records, ∃ k, (k, m) ∈ r.msgs) := by
    intro m
    unfold Ack.AckManager.Get
    rw [Ack.mem_foldl_append (fun r => r.Get d now) a.records m []]
    simp only [List.not_mem_nil, false_or]
    constructor
    · rintro ⟨r, hr, hmr⟩
      rcases (Ack.mem_recorder_Get r d now m).mp hmr with ⟨hd, hage, k, hk⟩
      exact ⟨hd, hage, r, hr, k, hk⟩
    · rintro ⟨hd, hage, r, hr, k, hk⟩
      exact ⟨r, hr, (Ack.mem_recorder_Get r d now m).mpr ⟨hd, hage, k, hk⟩⟩
  refine ⟨?_, hmem⟩
  intro hd
  refine List.eq_nil_iff_forall_not_mem.mpr fun m hm => ?_
  rcases (hmem m).mp hm with ⟨hpos, -, -⟩
  omega

/-- Witness for C8 on `exMgrLoaded` at time 100: `Get 0` is empty, and the
record of id 1 in the second shard (timestamp 10, age 90 ≥ 50) is
returned by `Get 50`. -/
theorem C8_witness :
    Ack.AckManager.Get Ack.exMgrLoaded 0 100 = [] ∧
    (⟨1, 10, 0, 5⟩ : Ack.Msg Int Int) ∈
      Ack.AckManager.Get Ack.exMgrLoaded 50 100 :=
  ⟨(C8_expired_exactly_aged Ack.exMgrLoaded 0 100).1 (by decide),
   ((C8_expired_exactly_aged Ack.exMgrLoaded 50 100).2 ⟨1, 10, 0, 5⟩).mpr
     ⟨by decide, by decide, Ack.exShardTwo, by decide, 1, by decide⟩⟩

/-- C9: the claim — `Compact()`/`ReAllocate()` leaves the logical
contents of every shard unchanged — states the intended behaviour, but
the code cannot exhibit it: `recorder.ReAllocate` takes the write lock
with `Lock()` and releases it with `RUnlock()`, an unconditional runtime
fatal (`sync: RUnlock of unlocked RWMutex`) on a write-locked mutex, so
every shard call — and hence every Manager-level `ReAllocate`, which dies
on its first shard — crashes the process instead of returning (first two
conjuncts, the second evaluated on a concrete loaded manager). The copy
the shard builds and installs just before the fatal unlock does preserve
the id-to-record mapping of every shard exactly (last conjunct, on the
same loaded manager), confirming that the claim describes the intent of
the copy loop the fatal cuts short. -/
theorem C9_compact_fatal_unlock :
    (∀ r : Ack.recorder Int Int, Ack.recorder.ReAllocate r = none) ∧
    Ack.AckManager.ReAllocate Ack.exMgrLoaded = none ∧
    ∀ (i : Nat) (k : Int),
      ((Ack.exMgrLoaded.records.map Ack.recorder.reAllocateCopy)[i]?.map
          (fun r => Ack.mapLookup r.msgs k)) =
        (Ack.exMgrLoaded.records[i]?.map
          (fun r => Ack.mapLookup r.msgs k)) := by
  have hall : ∀ r ∈ Ack.exMgrLoaded.records, Ack.NodupKeys r.msgs := by
    decide
  refine ⟨fun r => rfl, rfl, ?_⟩
  intro i k
  rw [List.getElem?_map]
  cases hc : Ack.exMgrLoaded.records[i]? with
  | none => simp
  | some r =>
      simp only [Option.map_some']
      rw [Ack.recorder_reAllocateCopy_lookup r (hall r (List.getElem?_mem hc)) k]

/-- C10: on an async Manager, whether `Set`/`Ack` accept an item depends
only on the occupancy of the corresponding bounded queue, never on the
running status: for every status value `s` the outcome is the same as for
the original status (only the carried status differs), and whenever the
queue has free space the enqueue succeeds with no error — in particular
with `s = 0`, i.e. before any `Start` or after `Stop`. -/
theorem C10_accept_ignores_status {α β : Type} (a : Ack.AckManager α β)
    (id : Int) (f : α) (v : β) (now s : Int) (ha : a.async = true) :
    (Ack.AckManager.Set { a with status := s } id f v now =
      (Ack.AckManager.Set a id f v now).map
        (fun r => (r.1, { r.2 with status := s }))) ∧
    (Ack.AckManager.Ack { a with status := s } id f =
      (Ack.AckManager.Ack a id f).map
        (fun r => (r.1, { r.2 with status := s }))) ∧
    ((a.setCh.length : Int) < a.setBufSize →
      ∃ a2, Ack.AckManager.Set { a with status := s } id f v now =
        some (none, a2) ∧ a2.setCh = a.setCh ++ [⟨id, now, f, v⟩]) ∧
    ((a.ackCh.length : Int) < a.ackBufSize →
      ∃ a2, Ack.AckManager.Ack { a with status := s } id f =
        some (none, a2) ∧ a2.ackCh = a.ackCh ++ [(id, f)]) := by
  have hset : ∀ b : Ack.AckManager α β, b.async = true →
      Ack.AckManager.Set b id f v now =
        if (b.setCh.length : Int) < b.setBufSize
        then some (none, { b with setCh := b.setCh ++ [⟨id, now, f, v⟩] })
        else some (some Ack.AckError.ErrMsgRecordFailed, b) := by
    intro b hb
    simp [Ack.AckManager.Set, hb]
  have hack : ∀ b : Ack.AckManager α β, b.async = true →
      Ack.AckManager.Ack b id f =
        if (b.ackCh.length : Int) < b.ackBufSize
        then some (none, { b with ackCh := b.ackCh ++ [(id, f)] })
        else some (some Ack.AckError.ErrMsgAckFailed, b) := by
    intro b hb
    simp [Ack.AckManager.Ack, hb]
  have has : Ack.AckManager.async { a with status := s } = true := ha
  refine ⟨?_, ?_, ?_, ?_⟩
  · rw [hset a ha, hset { a with status := s } has]
    by_cases hfull : (a.setCh.length : Int) < a.setBufSize
    · rw [if_pos hfull, if_pos hfull]
      rfl
    · rw [if_neg hfull, if_neg hfull]
      rfl
  · rw [hack a ha, hack { a with status := s } has]
    by_cases hfull : (a.ackCh.length : Int) < a.ackBufSize
    · rw [if_pos hfull, if_pos hfull]
      rfl
    · rw [if_neg hfull, if_neg hfull]
      rfl
  · intro hfree
    rw [hset { a with status := s } has]
    rw [if_pos hfree]
    exact ⟨_, rfl, rfl⟩
  · intro hfree
    rw [hack { a with status := s } has]
    rw [if_pos hfree]
    exact ⟨_, rfl, rfl⟩

/-- Witness for C10: on `exAsyncEmpty` with status forced to 0 (no Start
ever ran) the enqueue still succeeds. -/
theorem C10_witness :
    ∃ a2, Ack.AckManager.Set { Ack.exAsyncEmpty with status := 0 }
        1 0 10 100 = some (none, a2) ∧
      a2.setCh = Ack.exAsyncEmpty.setCh ++ [⟨1, 100, 0, 10⟩] :=
  (C10_accept_ignores_status Ack.exAsyncEmpty 1 0 10 100 0 rfl).2.2.1
    (by decide)
